import Mathlib

/-!
Verification development for the JPyang plugin (src/pyang/plugins/jpyang.py),
a Java-class generator for YANG schema trees.  The Python source is embedded
shallowly: each Python function that the properties below depend on is
translated into an executable Lean definition operating on an explicit
statement-tree type.  Mutation of the statement tree is modelled by returning
a fresh tree; the parent pointers that some helpers climb are modelled by
passing the ancestor information explicitly; Python attribute absence is
modelled with Option; Python functions that can raise on malformed input
return Option, with none standing for the raising path.
-/

/-- Separator characters removed by camelize (hyphen and dot). -/
def isSep (c : Char) : Bool := c = '-' || c = '.'

/-- Python capitalize of a single character (str.capitalize on a 1-char
slice upper-cases it); jpyang only feeds ASCII identifiers through this. -/
def capChar (c : Char) : Char := c.toUpper

/-- Core of jpyang.camelize on the character list of the argument.  Mirrors
the pairwise loop: a separator followed by a further character is dropped and
that following character is capitalized (the pair is then skipped), any other
character is kept; a trailing separator has no following character and is kept. -/
def camelizeChars : List Char → List Char
  | [] => []
  | [c] => [c]
  | c :: d :: rest =>
    if isSep c then capChar d :: camelizeChars rest
    else c :: camelizeChars (d :: rest)

/-- jpyang.camelize restricted to an actual string argument. -/
def camelizeStr (s : String) : String := ⟨camelizeChars s.data⟩

/-- jpyang.camelize: returns an empty string when the argument is None. -/
def camelize : Option String → String
  | none => ""
  | some s => camelizeStr s

/-- jpyang.capitalize_first: string[:1].capitalize() + string[1:]. -/
def capitalize_first (s : String) : String :=
  match s.data with
  | [] => ""
  | c :: rest => ⟨capChar c :: rest⟩

/-- jpyang.java_reserved_words (the module-level set, as a list). -/
def java_reserved_words : List String :=
  ["abstract", "assert", "boolean", "break", "byte",
   "case", "catch", "char", "class", "const*", "continue", "default",
   "double", "do", "else", "enum", "extends", "false",
   "final", "finally", "float", "for", "goto*", "if",
   "implements", "import", "instanceof", "int", "interface", "long",
   "native", "new", "null", "package", "private", "protected",
   "public", "return", "short", "static", "strictfp", "super",
   "switch", "synchronized", "this", "throw", "throws", "transient",
   "true", "try", "void", "volatile", "while"]

/-- jpyang.java_lang (subset of java.lang class short names). -/
def java_lang : List String :=
  ["Boolean", "Byte", "Double", "Float", "Integer",
   "Long", "Number", "Object", "Short", "String"]

/-- jpyang.immutable_stmts: keywords whose argument is never rewritten. -/
def immutable_stmts : List String :=
  ["type", "typedef", "namespace", "prefix", "organization",
   "contact", "description", "range"]

/-- Schema statement tree.  keyword and arg are the node kind tag and name;
substmts are the declared substatements; iChildren models the i_children
annotation (absent and empty are behaviourally identical in the embedded
code paths, both are the empty list); iTypedef models the i_typedef
annotation (none = attribute absent); iTargetTop models the i_target_node
annotation of augment statements, of which the embedded code reads only the
top attribute, so the resolved target's top-level module is stored directly;
parentArgs records the args of the proper ancestors except the root,
outermost first -- the data that get_package reads off the parent pointers. -/
inductive Stmt where
  | mk (keyword : String) (arg : String) (substmts : List Stmt)
       (iChildren : List Stmt) (iTypedef : Option Stmt)
       (iTargetTop : Option Stmt) (parentArgs : List String) : Stmt

instance : Inhabited Stmt := ⟨.mk "" "" [] [] none none []⟩

/-- Keyword field of a statement. -/
def Stmt.keyword : Stmt → String
  | .mk k _ _ _ _ _ _ => k

/-- Argument (name) field of a statement. -/
def Stmt.arg : Stmt → String
  | .mk _ a _ _ _ _ _ => a

/-- Substatement list of a statement. -/
def Stmt.substmts : Stmt → List Stmt
  | .mk _ _ subs _ _ _ _ => subs

/-- The i_children annotation of a statement. -/
def Stmt.iChildren : Stmt → List Stmt
  | .mk _ _ _ ich _ _ _ => ich

/-- The i_typedef annotation of a statement. -/
def Stmt.iTypedef : Stmt → Option Stmt
  | .mk _ _ _ _ td _ _ => td

/-- Top module of the i_target_node annotation of a statement. -/
def Stmt.iTargetTop : Stmt → Option Stmt
  | .mk _ _ _ _ _ tgt _ => tgt

/-- Ancestor args recorded for get_package (parent-pointer data). -/
def Stmt.parentArgs : Stmt → List String
  | .mk _ _ _ _ _ _ pa => pa

/-- pyang Statement.search_one(keyword): first substatement with the given
keyword, None when there is none. -/
def search_one (s : Stmt) (kw : String) : Option Stmt :=
  s.substmts.find? (fun c => c.keyword == kw)

/-- pyang Statement.search_one(keyword, arg): first substatement matching
both the keyword and the arg. -/
def search_one_arg (s : Stmt) (kw arg : String) : Option Stmt :=
  s.substmts.find? (fun c => c.keyword == kw && c.arg == arg)

/-- pyang Statement.search(keyword): all substatements with the keyword. -/
def search (s : Stmt) (kw : String) : List Stmt :=
  s.substmts.filter (fun c => c.keyword == kw)

/-- New value of stmt.arg after jpyang.make_valid_identifier: for a
non-immutable keyword and a truthy arg, camelize it and prepend a J when the
result is a Java reserved word; otherwise the arg is left untouched.  (A None
arg is merged with the empty string: both are falsy and both are untouched.) -/
def make_valid_identifier_arg (keyword arg : String) : String :=
  if keyword ∉ immutable_stmts ∧ arg ≠ "" then
    let a := camelizeStr arg
    if a ∈ java_reserved_words then "J" ++ a else a
  else arg

/-- jpyang.make_valid_identifier on a statement (mutation modelled by
returning the updated node). -/
def make_valid_identifier : Stmt → Stmt
  | .mk k a subs ich td tgt pa =>
    .mk k (make_valid_identifier_arg k a) subs ich td tgt pa

mutual

/-- jpyang.make_valid_identifiers: applies make_valid_identifier to the node
and recursively to its substmts and i_children lists.  (In Python the two
lists may alias the same node objects; the value embedding rewrites each copy
once, which coincides with the source whenever the per-name rewrite is
idempotent on the tree, and is compared against the claim on alias-free
inputs.) -/
def make_valid_identifiers : Stmt → Stmt
  | .mk k a subs ich td tgt pa =>
    .mk k (make_valid_identifier_arg k a)
      (make_valid_identifiers_list subs) (make_valid_identifiers_list ich)
      td tgt pa

/-- Recursion of make_valid_identifiers over a statement list. -/
def make_valid_identifiers_list : List Stmt → List Stmt
  | [] => []
  | s :: rest => make_valid_identifiers s :: make_valid_identifiers_list rest

end

/-- Context options consulted by the embedded code (ctx.opts fields). -/
structure Ctx where
  debug : Bool
  verbose : Bool
  directory : String
deriving DecidableEq, Repr

/-- Condition of print_warning on the context: not ctx or ctx.opts.debug or
ctx.opts.verbose. -/
def warnEnabled : Option Ctx → Bool
  | none => true
  | some c => c.debug || c.verbose

/-- jpyang.print_warning.  State passed explicitly: ws is the module-level
outputted_warnings list; the result is the new list paired with the lines
printed to stderr.  The Python self-call that substitutes the default message
when msg is empty re-evaluates an unchanged guard, so it is collapsed into
the let binding below. -/
def print_warning (msg key : String) (ctx : Option Ctx) (ws : List String) :
    List String × List String :=
  if (key = "" ∨ key ∉ ws) ∧ warnEnabled ctx = true then
    let m := if msg = "" then
      "No support for type \"" ++ key ++ "\", defaulting to string." else msg
    (if key ≠ "" then ws ++ [key] else ws, ["WARNING: " ++ m])
  else (ws, [])

/-- Python str.split(sep) for a single-character separator: splits on every
occurrence, keeping empty pieces (and yields one empty piece for the empty
string). -/
def splitOnChar (sep : Char) : List Char → List (List Char)
  | [] => [[]]
  | c :: rest =>
    if c = sep then [] :: splitOnChar sep rest
    else
      match splitOnChar sep rest with
      | [] => [[c]]
      | g :: gs => (c :: g) :: gs

/-- Python str.split on strings. -/
def pySplit (sep : Char) (s : String) : List String :=
  (splitOnChar sep s.data).map List.asString

/-- jpyang.get_package: the ancestor args (parent-pointer walk, modelled by
the parentArgs field) appended to the split output directory, with a leading
src component dropped, joined with dots.  os.sep is the Linux "/". -/
def get_package (ctx : Ctx) (parentArgs : List String) : String :=
  let fullPackage := pySplit '/' ctx.directory ++ parentArgs
  String.intercalate "."
    (match fullPackage with
     | "src" :: rest => rest
     | full => full)

/-- jpyang.get_base_type: follows the type substatement and its i_typedef
annotation chain.  fuel bounds the recursion (the Python call stack); none is
the raising path (missing type substatement) or fuel exhaustion. -/
def get_base_type : Nat → Stmt → Option Stmt
  | 0, _ => none
  | fuel + 1, stmt =>
    match search_one stmt "type" with
    | none => none
    | some typeStmt =>
      match typeStmt.iTypedef with
      | none => some typeStmt
      | some typedef => get_base_type fuel typedef

/-- Builtin integer type names dispatched on in get_types. -/
def intTypeNames : List String :=
  ["int8", "int16", "int32", "int64", "uint8", "uint16", "uint32", "uint64"]

/-- jpyang.get_types: returns the (netconf, primitive) type pair of a type,
typedef, leaf or leaf-list statement, threading the outputted_warnings list
and collecting printed warning lines.  none models the raising/assert-failing
paths (missing type substatement, keyword outside type/typedef, an i_typedef
annotation that is present but None) and fuel exhaustion on the typedef
recursion. -/
def get_types : Nat → Ctx → List String → Stmt →
    Option ((String × String) × List String × List String)
  | 0, _, _, _ => none
  | fuel + 1, ctx, ws, yangType0 =>
    let ytOpt :=
      if yangType0.keyword = "leaf" ∨ yangType0.keyword = "leaf-list" then
        search_one yangType0 "type"
      else some yangType0
    match ytOpt with
    | none => none
    | some yt =>
      if yt.keyword = "type" ∨ yt.keyword = "typedef" then
        let primitive := capitalize_first (camelizeStr yt.arg)
        let netconf := "com.tailf.jnc.Yang" ++ primitive
        if yt.arg = "string" ∨ yt.arg = "boolean" then
          some ((netconf, primitive), ws, [])
        else if yt.arg = "enumeration" ∨ yt.arg = "binary" then
          some ((netconf, "String"), ws, [])
        else if yt.arg = "bits" then
          some ((netconf, "BigInteger"), ws, [])
        else if yt.arg = "instance-identifier" ∨ yt.arg = "leafref" ∨
            yt.arg = "identityref" then
          some ((netconf, "Element"), ws, [])
        else if yt.arg = "empty" then
          some ((netconf, "boolean"), ws, [])
        else if yt.arg ∈ intTypeNames then
          let integerType := ["long", "int", "short", "byte"]
          let p :=
            if yt.arg.take 1 = "u" then
              ("long" :: integerType.dropLast,
               "com.tailf.jnc.YangUI" ++ yt.arg.drop 2)
            else (integerType, netconf)
          let primitive :=
            if yt.arg.takeRight 2 = "64" then p.1[0]!
            else if yt.arg.takeRight 2 = "32" then p.1[1]!
            else if yt.arg.takeRight 2 = "16" then p.1[2]!
            else p.1[3]!
          some ((p.2, primitive), ws, [])
        else if yt.arg = "decimal64" then
          some ((netconf, "BigDecimal"), ws, [])
        else
          match yt.iTypedef with
          | none =>
            let typeId := get_package ctx yt.parentArgs ++ yt.arg
            let r := print_warning "" typeId (some ctx) ws
            some ((netconf, primitive), r.1, r.2)
          | some typedef =>
            match get_base_type fuel typedef with
            | none => none
            | some basetype =>
              let pkg := get_package ctx typedef.parentArgs
              let typedefArg := capitalize_first (camelizeStr yt.arg)
              match get_types fuel ctx ws basetype with
              | none => none
              | some ((_, prim), ws2, printed) =>
                some ((pkg ++ "." ++ typedefArg, prim), ws2, printed)
      else none

/-- Sequential get_types over several statements, threading the warning
list; the per-call printed lines are not collected (they do not feed back
into any embedded computation). -/
def get_types_many (fuel : Nat) (ctx : Ctx) :
    List Stmt → List String → Option (List (String × String) × List String)
  | [], ws => some ([], ws)
  | s :: rest, ws =>
    match get_types fuel ctx ws s with
    | none => none
    | some (p, ws2, _) =>
      match get_types_many fuel ctx rest ws2 with
      | none => none
      | some (ps, ws3) => some (p :: ps, ws3)

/-- jpyang.is_config: walks the node and then its ancestors for the first
config substatement; configuration data when none is found or the first
found has argument true.  chain is the node followed by its ancestors,
closest first (the parent-pointer walk made explicit). -/
def is_config (chain : List Stmt) : Bool :=
  match chain.findSome? (fun s => search_one s "config") with
  | none => true
  | some config => config.arg == "true"

/-- Parameter types of the i-th value constructor of
ListMethodGenerator.value_constructors: the loop adds one parameter per key
leaf, typed with the confm type for i = 0, String for i = 1 and the
primitive type for i = 2. -/
def constructorParams (pairs : List (String × String)) (i : Nat) :
    List String :=
  pairs.map (fun p => if i = 0 then p.1 else if i = 1 then "String" else p.2)

/-- ListMethodGenerator.value_constructors, abstracted to the parameter-type
lists of the produced constructors.  The assert on self.is_config and the
raising paths (missing key statement, a key name without a matching leaf)
are modelled by none.  Note the count test of the source: the filter keeps
key leafs whose NAME (k.arg) differs from the literal string, not leafs
whose type does. -/
def value_constructors (fuel : Nat) (ctx : Ctx) (ws : List String)
    (stmt : Stmt) (isCfg : Bool) : Option (List (List String)) :=
  if isCfg then
    match search_one stmt "key" with
    | none => none
    | some key =>
      let keys := pySplit ' ' key.arg
      match keys.mapM (fun k => search_one_arg stmt "leaf" k) with
      | none => none
      | some keyStmts =>
        let numberOfValueConstructors :=
          if !(keyStmts.filter (fun k => k.arg ≠ "string")).isEmpty
          then 3 else 2
        match get_types_many fuel ctx keyStmts ws with
        | none => none
        | some (pairs, _) =>
          some ((List.range numberOfValueConstructors).map
            (constructorParams pairs))
  else none

/-- ListMethodGenerator.constructors, abstracted to parameter-type lists:
the empty constructor, extended with the value constructors when the list is
configuration data or has a key statement.  chain is the list statement
followed by its ancestors (for is_config). -/
def list_constructors (fuel : Nat) (ctx : Ctx) (ws : List String)
    (chain : List Stmt) : Option (List (List String)) :=
  match chain with
  | [] => none
  | stmt :: _ =>
    let isCfg := is_config chain
    if isCfg || (search_one stmt "key").isSome then
      match value_constructors fuel ctx ws stmt isCfg with
      | none => none
      | some vcs => some ([] :: vcs)
    else some [[]]

/-- Code elements appended by ClassGenerator.generate_child for a leaf-list
child, abstracted to constructors-call descriptors. -/
inductive Meth where
  | comment (kw arg : String) (optional : Bool)
  | childIterator (arg : String)
  | setLeafValue (arg prefixName argType confmType : String)
  | deleteOp (arg : String) (argTypes : List String) (string keys : Bool)
  | addValue (arg prefixName : String)
  | markOp (arg op argType : String)
deriving DecidableEq, Repr

/-- The leaf-list branch of ClassGenerator.generate_child (the access
methods appended for a leaf-list child, in source order).  none models the
raising paths: a missing type substatement or a get_types failure. -/
def generate_child_leaf_list (fuel : Nat) (ctx : Ctx) (ws : List String)
    (prefixName : String) (sub : Stmt) : Option (List Meth) :=
  if sub.keyword = "leaf-list" then
    match search_one sub "type" with
    | none => none
    | some typeStmt =>
      match get_types fuel ctx ws typeStmt with
      | none => none
      | some ((typeStr1, typeStr2), _, _) =>
        some ([Meth.comment "leaf-list" sub.arg false,
               Meth.childIterator sub.arg,
               Meth.setLeafValue sub.arg prefixName typeStr1 "",
               Meth.setLeafValue sub.arg "" "String" typeStr1] ++
              (if typeStr2 ≠ "String" then
                [Meth.setLeafValue sub.arg "" typeStr2 typeStr1] else []) ++
              [Meth.deleteOp sub.arg [typeStr1] false false,
               Meth.deleteOp sub.arg [typeStr1] true false,
               Meth.addValue sub.arg prefixName,
               Meth.markOp sub.arg "replace" typeStr1,
               Meth.markOp sub.arg "replace" "String",
               Meth.markOp sub.arg "merge" typeStr1,
               Meth.markOp sub.arg "merge" "String",
               Meth.markOp sub.arg "create" typeStr1,
               Meth.markOp sub.arg "create" "String",
               Meth.markOp sub.arg "delete" typeStr1,
               Meth.markOp sub.arg "delete" "String"])
  else none

/-- Number of mark-for-operation methods in a generated element list. -/
def countMarks (ms : List Meth) : Nat :=
  (ms.filter (fun m =>
    match m with
    | Meth.markOp _ _ _ => true
    | _ => false)).length

/-- TypedefMethodGenerator.needs_check: the source sets it unconditionally to
True (the restriction-based reassignment on the following line is commented
out). -/
def typedef_needs_check : Bool := true

/-- TypedefMethodGenerator line: is_string is computed from the literal type
argument. -/
def typedef_is_string (stmtType : Option Stmt) : Bool :=
  match stmtType with
  | none => false
  | some st => st.arg = "string" || st.arg = "enumeration"

/-- TypedefMethodGenerator.checker, abstracted to the body line lists of the
produced methods: one method when needs_check holds (its body is the enum
membership disjunction when enum restrictions exist followed by the pattern
check when patterns exist, and empty otherwise), no method else.  none
models the raising path of a typedef without a type substatement (the enum
and pattern attributes are then never set). -/
def typedef_checker (stmt : Stmt) : Option (List (List String)) :=
  match search_one stmt "type" with
  | none => none
  | some st =>
    if typedef_needs_check then
      let enums := search st "enum"
      let patterns := search st "pattern"
      some [(if !enums.isEmpty then
              "boolean e = false;" ::
                enums.map (fun e => "e |= enumeration(\"" ++ e.arg ++ "\");")
                ++ ["throwException( !e );"]
             else []) ++
            (if !patterns.isEmpty then
              (if patterns.length = 1 then
                ["pattern(\"" ++ patterns.head!.arg ++ "\");"]
               else
                "java.lang.String[] regexs = \x7b" ::
                  patterns.map (fun p => "    \"" ++ p.arg ++ "\",")
                  ++ ["\x7d;", "pattern(regexs);"])
             else [])]
    else some []

/-- TypedefMethodGenerator.constructors, abstracted to (parameter type, body
lines): one constructor from String, plus one from the primitive type unless
is_string; each body is the template super(value) call followed by a check
call when needs_check.  none models a missing type substatement or a
get_types failure. -/
def typedef_constructors (fuel : Nat) (ctx : Ctx) (ws : List String)
    (stmt : Stmt) : Option (List (String × List String)) :=
  match search_one stmt "type" with
  | none => none
  | some stmtType =>
    match get_types fuel ctx ws stmtType with
    | none => none
    | some ((_, primitive), _, _) =>
      let isString := typedef_is_string (some stmtType)
      let count := if isString then 1 else 2
      some ((List.range count).map (fun i =>
        (if i = 0 then "String" else primitive,
         ["super(value);"] ++
           (if typedef_needs_check then ["check();"] else []))))

/-- Python dict assignment d[k] = v on an association list. -/
def dictInsert (d : List (String × Stmt)) (k : String) (v : Stmt) :
    List (String × Stmt) :=
  if d.any (fun p => p.1 == k) then
    d.map (fun p => if p.1 == k then (k, v) else p)
  else d ++ [(k, v)]

/-- Python dict lookup on an association list. -/
def dictLookup (d : List (String × Stmt)) (k : String) : Option Stmt :=
  (d.find? (fun p => p.1 == k)).map (fun p => p.2)

/-- Result of the augment branch of ClassGenerator.generate_class: whether a
class is emitted for the node, the augmented_modules registry, the
outputted_warnings list and the printed warning lines after the branch. -/
structure AugOut where
  emitsClass : Bool
  registry : List (String × Stmt)
  ws : List String
  printed : List String

/-- The augment branch of ClassGenerator.generate_class: no class is ever
generated for the augment statement itself; with a resolved target the top
module of the target is recorded in augmented_modules; without one a warning
is issued through print_warning.  none models reaching the branch with a
non-augment statement (the code after the branch is outside this model). -/
def generate_class_augment (ctx : Option Ctx) (registry : List (String × Stmt))
    (ws : List String) (stmt : Stmt) : Option AugOut :=
  if stmt.keyword = "augment" then
    match stmt.iTargetTop with
    | none =>
      let r := print_warning "Target missing from augment statement"
        "Target missing from augment statement" ctx ws
      some ⟨false, registry, r.1, r.2⟩
    | some target => some ⟨false, dictInsert registry target.arg target, ws, []⟩
  else none

/-- OrderedSet.add: appends the item at the end unless already present (the
doubly linked list of the source is represented by its item sequence in link
order). -/
def OrderedSet.add [DecidableEq α] (l : List α) (x : α) : List α :=
  if x ∉ l then l ++ [x] else l

/-- OrderedSet.add_first: inserts the item at the front unless already
present. -/
def OrderedSet.add_first [DecidableEq α] (l : List α) (x : α) : List α :=
  if x ∉ l then x :: l else l

/-- Folding a sequence of OrderedSet.add calls over an initial state. -/
def OrderedSet.addAll [DecidableEq α] (l : List α) (xs : List α) : List α :=
  xs.foldl OrderedSet.add l

/-- Modelled from the spec: the sequence containing each distinct value
added, in order of each value's first addition, the values in seen being
treated as already present. -/
def firstAdditionOrderFrom [DecidableEq α] (seen : List α) :
    List α → List α
  | [] => []
  | x :: xs =>
    if x ∈ seen then firstAdditionOrderFrom seen xs
    else x :: firstAdditionOrderFrom (x :: seen) xs

/-- Modelled from the spec: distinct values in order of first addition. -/
def firstAdditionOrder [DecidableEq α] (xs : List α) : List α :=
  firstAdditionOrderFrom [] xs

/-- Predicate: no two adjacent characters are both separators. -/
def noAdj : List Char → Bool
  | [] => true
  | [_] => true
  | c :: d :: rest => !(isSep c && isSep d) && noAdj (d :: rest)

/-- Predicate: no separator occurs before the last position. -/
def interiorOk : List Char → Bool
  | [] => true
  | [_] => true
  | c :: d :: rest => !isSep c && interiorOk (d :: rest)

mutual

/-- Sanitization precondition on a tree: every non-immutable node name along
substmts and i_children has no two adjacent separator characters. -/
def stmtOK : Stmt → Bool
  | .mk k a subs ich _ _ _ =>
    (decide (k ∈ immutable_stmts) || noAdj a.data) &&
      stmtOKList subs && stmtOKList ich

/-- stmtOK over a statement list. -/
def stmtOKList : List Stmt → Bool
  | [] => true
  | s :: rest => stmtOK s && stmtOKList rest

end

/-- Concrete tree for the C1 counterexample: a container named a--b. -/
def stmtC1 : Stmt := .mk "container" "a--b" [] [] none none []

/-- Concrete context: plain run (no debug, no verbose), output package gen. -/
def ctxPlain : Ctx := ⟨false, false, "gen"⟩

/-- Concrete context: verbose run, output package gen. -/
def ctxVerbose : Ctx := ⟨false, true, "gen"⟩

/-- Concrete unresolvable type statement for C2. -/
def stmtC2 : Stmt := .mk "type" "mytype" [] [] none none []

/-- Concrete text-typed key leaf named name, for C3. -/
def keyLeafC3 : Stmt :=
  .mk "leaf" "name" [.mk "type" "string" [] [] none none []] [] none none []

/-- Concrete list statement for C3: one key leaf named name of type string. -/
def stmtC3 : Stmt :=
  .mk "list" "items"
    [.mk "key" "name" [] [] none none [], keyLeafC3]
    [] none none []

/-- Concrete text-typed leaf-list for C4. -/
def stmtC4 : Stmt :=
  .mk "leaf-list" "foo" [.mk "type" "string" [] [] none none []] []
    none none []

/-- Concrete restriction-free type statement for C7. -/
def typeC7 : Stmt := .mk "type" "int32" [] [] none none []

/-- Concrete restriction-free typedef for C7. -/
def stmtC7 : Stmt := .mk "typedef" "myType" [typeC7] [] none none []

/-- Concrete module statement used as an augment target top for C8. -/
def modC8 : Stmt := .mk "module" "other" [] [] none none []

/-- Concrete augment statement with a resolved target for C8. -/
def augC8 : Stmt := .mk "augment" "/x/y" [] [] none (some modC8) []

/-- Concrete augment statement without a resolved target for C8. -/
def augC8none : Stmt := .mk "augment" "/x/z" [] [] none none []

/-- Concrete sanitization-friendly tree for the C1 witness. -/
def stmtC1ok : Stmt :=
  .mk "container" "a-b"
    [.mk "leaf" "x.y" [] [] none none []]
    [.mk "leaf" "x.y" [] [] none none []] none none []

/-- Char.ofNat of a valid scalar value round-trips through toNat. -/
theorem toNat_ofNat_valid (n : Nat) (h : n.isValidChar) :
    (Char.ofNat n).toNat = n := by
  rw [Char.ofNat, dif_pos h]
  rfl

/-- Capitalizing a non-separator character yields a non-separator. -/
theorem isSep_capChar {c : Char} (h : isSep c = false) :
    isSep (capChar c) = false := by
  unfold capChar
  by_cases hr : c.toNat ≥ 97 ∧ c.toNat ≤ 122
  · have hup : c.toUpper = Char.ofNat (c.toNat - 32) := by
      unfold Char.toUpper
      simp [hr]
    have hv : (c.toNat - 32).isValidChar := by
      left
      omega
    have ht : (Char.ofNat (c.toNat - 32)).toNat = c.toNat - 32 :=
      toNat_ofNat_valid _ hv
    rw [hup]
    simp only [isSep, Bool.or_eq_false_iff, decide_eq_false_iff_not]
    constructor
    · intro he
      have h2 : (Char.ofNat (c.toNat - 32)).toNat = ('-' : Char).toNat := by
        rw [he]
      rw [ht] at h2
      have h45 : ('-' : Char).toNat = 45 := rfl
      rw [h45] at h2
      omega
    · intro he
      have h2 : (Char.ofNat (c.toNat - 32)).toNat = ('.' : Char).toNat := by
        rw [he]
      rw [ht] at h2
      have h46 : ('.' : Char).toNat = 46 := rfl
      rw [h46] at h2
      omega
  · have hup : c.toUpper = c := by
      unfold Char.toUpper
      simp [hr]
    rw [hup, h]

/-- camelizeChars maps nonempty lists to nonempty lists. -/
theorem camelizeChars_ne_nil : ∀ (l : List Char), l ≠ [] →
    camelizeChars l ≠ [] := by
  intro l hl
  match l with
  | [c] => simp [camelizeChars]
  | c :: d :: rest =>
    unfold camelizeChars
    split <;> simp

/-- noAdj is preserved by dropping the head. -/
theorem noAdj_tail {x : Char} {xs : List Char} (h : noAdj (x :: xs) = true) :
    noAdj xs = true := by
  match xs with
  | [] => rfl
  | y :: ys =>
    rw [noAdj, Bool.and_eq_true] at h
    exact h.2

/-- Prepending a non-separator preserves interiorOk. -/
theorem interiorOk_cons {c : Char} {l : List Char} (hc : isSep c = false)
    (hl : interiorOk l = true) : interiorOk (c :: l) = true := by
  match l with
  | [] => rfl
  | x :: xs =>
    rw [interiorOk, Bool.and_eq_true]
    exact ⟨by rw [hc]; rfl, hl⟩

/-- On inputs without adjacent separators, the camelized output has
separators only in its last position. -/
theorem interiorOk_camelize : ∀ (l : List Char), noAdj l = true →
    interiorOk (camelizeChars l) = true := by
  intro l
  induction l using camelizeChars.induct with
  | case1 =>
    intro _
    rfl
  | case2 c =>
    intro _
    rfl
  | case3 c d rest hsep ih =>
    intro h
    rw [camelizeChars, if_pos hsep]
    have hnd : isSep d = false := by
      rw [noAdj, Bool.and_eq_true] at h
      have h1 := h.1
      rw [hsep] at h1
      simp at h1
      exact h1
    have hrest : noAdj rest = true := noAdj_tail (noAdj_tail h)
    exact interiorOk_cons (isSep_capChar hnd) (ih hrest)
  | case4 c d rest hsep ih =>
    intro h
    rw [camelizeChars, if_neg hsep]
    rw [Bool.not_eq_true] at hsep
    exact interiorOk_cons hsep (ih (noAdj_tail h))

/-- camelizeChars is the identity on lists whose separators are all in the
last position. -/
theorem camelizeChars_of_interiorOk : ∀ (l : List Char),
    interiorOk l = true → camelizeChars l = l := by
  intro l
  induction l using camelizeChars.induct with
  | case1 =>
    intro _
    rfl
  | case2 c =>
    intro _
    rfl
  | case3 c d rest hsep ih =>
    intro h
    rw [interiorOk, Bool.and_eq_true] at h
    rw [hsep] at h
    simp at h
  | case4 c d rest hsep ih =>
    intro h
    rw [interiorOk, Bool.and_eq_true] at h
    rw [camelizeChars, if_neg hsep]
    rw [ih h.2]

/-- camelizeStr maps nonempty strings to nonempty strings. -/
theorem camelizeStr_ne_empty {s : String} (h : s ≠ "") :
    camelizeStr s ≠ "" := by
  intro hEq
  have hd : camelizeChars s.data = [] := congrArg String.data hEq
  have hne : s.data ≠ [] := by
    intro hnil
    apply h
    have hs : s = ⟨s.data⟩ := rfl
    rw [hs, hnil]
  exact camelizeChars_ne_nil s.data hne hd

/-- camelizeStr is idempotent on strings without adjacent separators. -/
theorem camelizeStr_idem {s : String} (h : noAdj s.data = true) :
    camelizeStr (camelizeStr s) = camelizeStr s := by
  show (⟨camelizeChars (camelizeChars s.data)⟩ : String) = _
  rw [camelizeChars_of_interiorOk _ (interiorOk_camelize _ h)]
  rfl

/-- Prefixing a reserved word with the J marker leaves the reserved set. -/
theorem J_append_not_reserved :
    ∀ w ∈ java_reserved_words, ("J" ++ w) ∉ java_reserved_words := by
  decide

/-- The per-name sanitization step is idempotent whenever the keyword is
immutable or the name has no two adjacent separator characters. -/
theorem make_valid_identifier_arg_idem (k a : String)
    (h : k ∈ immutable_stmts ∨ noAdj a.data = true) :
    make_valid_identifier_arg k (make_valid_identifier_arg k a) =
      make_valid_identifier_arg k a := by
  by_cases hk : k ∈ immutable_stmts
  · simp [make_valid_identifier_arg, hk]
  · have hna : noAdj a.data = true := h.resolve_left hk
    by_cases ha : a = ""
    · subst ha
      simp [make_valid_identifier_arg]
    · have hcne : camelizeStr a ≠ "" := camelizeStr_ne_empty ha
      have hio : interiorOk (camelizeStr a).data = true :=
        interiorOk_camelize _ hna
      have hfix : camelizeStr (camelizeStr a) = camelizeStr a :=
        camelizeStr_idem hna
      by_cases hres : camelizeStr a ∈ java_reserved_words
      · have step1 : make_valid_identifier_arg k a = "J" ++ camelizeStr a := by
          simp [make_valid_identifier_arg, hk, ha, hres]
        rw [step1]
        have hJne : ("J" ++ camelizeStr a) ≠ "" := by
          intro hEq
          have h2 := congrArg String.data hEq
          rw [String.data_append] at h2
          simp at h2
        have hJfix : camelizeStr ("J" ++ camelizeStr a) =
            "J" ++ camelizeStr a := by
          show (⟨camelizeChars ("J" ++ camelizeStr a).data⟩ : String) = _
          rw [String.data_append]
          have hJd : (("J" : String).data ++ (camelizeStr a).data) =
              'J' :: (camelizeStr a).data := rfl
          rw [hJd]
          have hioJ : interiorOk ('J' :: (camelizeStr a).data) = true :=
            interiorOk_cons (by decide) hio
          rw [camelizeChars_of_interiorOk _ hioJ]
          rfl
        have hJres : ("J" ++ camelizeStr a) ∉ java_reserved_words :=
          J_append_not_reserved _ hres
        simp [make_valid_identifier_arg, hk, hJne, hJfix, hJres]
      · have step1 : make_valid_identifier_arg k a = camelizeStr a := by
          simp [make_valid_identifier_arg, hk, ha, hres]
        rw [step1]
        simp [make_valid_identifier_arg, hk, hcne, hfix, hres]

/-- Every member of a list passing stmtOKList passes stmtOK. -/
theorem stmtOKList_mem : ∀ (l : List Stmt), stmtOKList l = true →
    ∀ s ∈ l, stmtOK s = true := by
  intro l
  induction l with
  | nil =>
    intro _ s hs
    exact absurd hs (List.not_mem_nil s)
  | cons x rest ih =>
    intro h s hs
    rw [stmtOKList, Bool.and_eq_true] at h
    rcases List.mem_cons.mp hs with hEq | hmem
    · rw [hEq]
      exact h.1
    · exact ih h.2 s hmem

/-- Idempotence of the sanitization pass, by strong induction on size. -/
theorem make_valid_identifiers_idem_aux : ∀ (n : Nat) (t : Stmt),
    sizeOf t ≤ n → stmtOK t = true →
    make_valid_identifiers (make_valid_identifiers t) =
      make_valid_identifiers t := by
  intro n
  induction n with
  | zero =>
    intro t ht _
    exfalso
    cases t with
    | mk k a subs ich td tgt pa =>
      simp [Stmt.mk.sizeOf_spec] at ht
  | succ n ih =>
    intro t ht hok
    cases t with
    | mk k a subs ich td tgt pa =>
      have hsz : ∀ s : Stmt, s ∈ subs ∨ s ∈ ich → sizeOf s ≤ n := by
        intro s hs
        have h1 : sizeOf s < sizeOf (Stmt.mk k a subs ich td tgt pa) := by
          rcases hs with hmem | hmem
          · have h2 := List.sizeOf_lt_of_mem hmem
            simp [Stmt.mk.sizeOf_spec]
            omega
          · have h2 := List.sizeOf_lt_of_mem hmem
            simp [Stmt.mk.sizeOf_spec]
            omega
        omega
      have hok2 := hok
      simp only [stmtOK, Bool.and_eq_true, Bool.or_eq_true,
        decide_eq_true_eq] at hok2
      obtain ⟨⟨hname, hsubs⟩, hich⟩ := hok2
      have hlist : ∀ (l : List Stmt), (∀ s ∈ l, sizeOf s ≤ n) →
          stmtOKList l = true →
          make_valid_identifiers_list (make_valid_identifiers_list l) =
            make_valid_identifiers_list l := by
        intro l
        induction l with
        | nil =>
          intro _ _
          rfl
        | cons s rest ihl =>
          intro hb hol
          rw [stmtOKList, Bool.and_eq_true] at hol
          rw [make_valid_identifiers_list]
          rw [make_valid_identifiers_list]
          rw [ih s (hb s (List.mem_cons_self s rest)) hol.1]
          rw [ihl (fun x hx => hb x (List.mem_cons_of_mem s hx)) hol.2]
      simp only [make_valid_identifiers]
      rw [make_valid_identifier_arg_idem k a hname]
      rw [hlist subs (fun s hs => hsz s (Or.inl hs)) hsubs]
      rw [hlist ich (fun s hs => hsz s (Or.inr hs)) hich]

/-- C1: the identifier-sanitization pass is NOT idempotent as claimed; this
theorem is the amended claim: on trees in which no non-immutable node name
contains two adjacent separator characters, a second application of
make_valid_identifiers returns its input tree unchanged. -/
theorem C1_sanitize_idempotent (t : Stmt) (h : stmtOK t = true) :
    make_valid_identifiers (make_valid_identifiers t) =
      make_valid_identifiers t :=
  make_valid_identifiers_idem_aux (sizeOf t) t (Nat.le_refl _) h

/-- C1 counterexample: a container named a--b is renamed to a-b by the first
pass and to aB by the second, so the second application changes a node name
and the claimed idempotence fails. -/
theorem C1_counterexample :
    Stmt.arg (make_valid_identifiers (make_valid_identifiers stmtC1)) ≠
      Stmt.arg (make_valid_identifiers stmtC1) := by
  simp only [stmtC1, make_valid_identifiers, make_valid_identifiers_list,
    Stmt.arg]
  decide

/-- C1 witness: a concrete tree satisfying the no-adjacent-separator
precondition on which the amended idempotence theorem applies. -/
theorem C1_witness :
    stmtOK stmtC1ok = true ∧
    make_valid_identifiers (make_valid_identifiers stmtC1ok) =
      make_valid_identifiers stmtC1ok := by
  have hOK : stmtOK stmtC1ok = true := by
    simp only [stmtC1ok, stmtOK, stmtOKList]
    decide
  exact ⟨hOK, C1_sanitize_idempotent stmtC1ok hOK⟩

/-- Auxiliary for C10: camelize keeps the final character of an input ending
in a separator (strong induction on the length of the prefix). -/
theorem camelize_last_sep_aux : ∀ (n : Nat) (l : List Char) (c : Char),
    l.length ≤ n → isSep c = true →
    (camelizeChars (l ++ [c])).getLast? = some c := by
  intro n
  induction n with
  | zero =>
    intro l c hl hc
    have hnil : l = [] := List.eq_nil_of_length_eq_zero (Nat.le_zero.mp hl)
    subst hnil
    simp [camelizeChars]
  | succ n ih =>
    intro l c hl hc
    match l with
    | [] => simp [camelizeChars]
    | [x] =>
      simp only [List.cons_append, List.nil_append]
      rw [camelizeChars]
      by_cases hx : isSep x = true
      · rw [if_pos hx]
        have hcs : c = '-' ∨ c = '.' := by
          simp [isSep] at hc
          exact hc
        rcases hcs with hcv | hcv <;> subst hcv <;> decide
      · rw [if_neg hx]
        simp [camelizeChars]
    | x :: y :: l2 =>
      simp only [List.cons_append]
      have hne : camelizeChars (l2 ++ [c]) ≠ [] :=
        camelizeChars_ne_nil _ (by simp)
      have hlen : l2.length + 1 ≤ n := by
        simp [List.length_cons] at hl
        omega
      by_cases hx : isSep x = true
      · rw [camelizeChars, if_pos hx]
        obtain ⟨z, zs, hz⟩ : ∃ z zs, camelizeChars (l2 ++ [c]) = z :: zs := by
          cases hcc : camelizeChars (l2 ++ [c]) with
          | nil => exact absurd hcc hne
          | cons z zs => exact ⟨z, zs, rfl⟩
        rw [hz, List.getLast?_cons_cons, ← hz]
        exact ih l2 c (by omega) hc
      · rw [camelizeChars, if_neg hx]
        have hne2 : camelizeChars (y :: (l2 ++ [c])) ≠ [] :=
          camelizeChars_ne_nil _ (by simp)
        obtain ⟨z, zs, hz⟩ :
            ∃ z zs, camelizeChars (y :: (l2 ++ [c])) = z :: zs := by
          cases hcc : camelizeChars (y :: (l2 ++ [c])) with
          | nil => exact absurd hcc hne2
          | cons z zs => exact ⟨z, zs, rfl⟩
        rw [hz, List.getLast?_cons_cons, ← hz]
        have h3 := ih (y :: l2) c (by simpa using hlen) hc
        simpa using h3

/-- C10: camelize preserves a final hyphen or dot (a separator is dropped
only when another character follows it), a sanitized name can therefore
still end in a separator (witnessed by the name a-), and camelize of None is
the empty string. -/
theorem C10_camelize_trailing_sep :
    (∀ (l : List Char) (c : Char), isSep c = true →
      (camelizeChars (l ++ [c])).getLast? = some c) ∧
    make_valid_identifier_arg "container" "a-" = "a-" ∧
    camelize none = "" :=
  ⟨fun l c hc => camelize_last_sep_aux l.length l c (Nat.le_refl _) hc,
   by decide, rfl⟩

/-- C10 witness: the preservation statement applied at a concrete input. -/
theorem C10_witness :
    (camelizeChars (['x'] ++ ['-'])).getLast? = some '-' ∧ camelize none = "" :=
  ⟨C10_camelize_trailing_sep.1 ['x'] '-' (by decide),
   C10_camelize_trailing_sep.2.2⟩

/-- firstAdditionOrderFrom depends on the seen accumulator only through
membership. -/
theorem firstAdditionOrderFrom_congr [DecidableEq α] :
    ∀ (xs s1 s2 : List α), (∀ y, y ∈ s1 ↔ y ∈ s2) →
    firstAdditionOrderFrom s1 xs = firstAdditionOrderFrom s2 xs := by
  intro xs
  induction xs with
  | nil =>
    intro s1 s2 _
    rfl
  | cons x xs ih =>
    intro s1 s2 h
    simp only [firstAdditionOrderFrom]
    by_cases hx : x ∈ s1
    · rw [if_pos hx, if_pos ((h x).mp hx)]
      exact ih s1 s2 h
    · rw [if_neg hx, if_neg (fun hc => hx ((h x).mpr hc))]
      rw [ih (x :: s1) (x :: s2) (fun y => by simp [h y])]

/-- Folding OrderedSet.add over a sequence appends exactly the values not
yet present, in first-occurrence order. -/
theorem OrderedSet.addAll_eq [DecidableEq α] :
    ∀ (xs l : List α),
    OrderedSet.addAll l xs = l ++ firstAdditionOrderFrom l xs := by
  intro xs
  induction xs with
  | nil =>
    intro l
    simp [OrderedSet.addAll, firstAdditionOrderFrom]
  | cons x xs ih =>
    intro l
    show OrderedSet.addAll (OrderedSet.add l x) xs = _
    by_cases hx : x ∈ l
    · have ha : OrderedSet.add l x = l := by
        simp [OrderedSet.add, hx]
      rw [ha, ih l, firstAdditionOrderFrom, if_pos hx]
    · have ha : OrderedSet.add l x = l ++ [x] := by
        simp [OrderedSet.add, hx]
      rw [ha, ih (l ++ [x])]
      rw [firstAdditionOrderFrom, if_neg hx]
      rw [firstAdditionOrderFrom_congr xs (l ++ [x]) (x :: l)
        (fun y => by simp [or_comm])]
      simp

/-- C5: iterating an OrderedSet built by a sequence of add calls yields
exactly the distinct values added, in order of each value's first addition,
and adding a value already present returns the set unchanged (hence changes
neither its length nor any element's position). -/
theorem C5_ordered_set_add (xs l : List String) (x : String) (hx : x ∈ l) :
    OrderedSet.addAll [] xs = firstAdditionOrder xs ∧
      OrderedSet.add l x = l := by
  constructor
  · rw [firstAdditionOrder, OrderedSet.addAll_eq xs []]
    rfl
  · simp [OrderedSet.add, hx]

/-- C5 witness: the add-sequence law and the duplicate-add law evaluated on
concrete inputs. -/
theorem C5_witness :
    (OrderedSet.addAll [] ["b", "a", "b"] = firstAdditionOrder ["b", "a", "b"] ∧
      OrderedSet.add ["a"] "a" = ["a"]) ∧
    OrderedSet.addAll [] ["b", "a", "b"] = ["b", "a"] :=
  ⟨C5_ordered_set_add ["b", "a", "b"] ["a"] "a" (by decide), by decide⟩

/-- C9: add_first on an item already contained in the OrderedSet leaves the
set completely unchanged -- same elements, same order, same length. -/
theorem C9_add_first_noop (l : List String) (x : String) (h : x ∈ l) :
    OrderedSet.add_first l x = l := by
  simp [OrderedSet.add_first, h]

/-- C9 witness: add_first of a present element on a concrete set. -/
theorem C9_witness : OrderedSet.add_first ["a", "b"] "b" = ["a", "b"] :=
  C9_add_first_noop ["a", "b"] "b" (by decide)

/-- C2: the code-bug evaluation.  Resolving an unresolvable type named
mytype (no i_typedef annotation) in a verbose context prints the
defaulting-to-string warning once -- a second resolution attempt with the
same identity prints nothing -- but the returned pair is built from the
unresolved name itself (com.tailf.jnc.YangMytype, Mytype), not the pair the
builtin string type resolves to. -/
theorem C2_unresolved_type_fallback :
    get_types 1 ctxVerbose [] stmtC2 =
      some (("com.tailf.jnc.YangMytype", "Mytype"), ["genmytype"],
        ["WARNING: No support for type \"genmytype\", defaulting to string."]) ∧
    get_types 1 ctxVerbose ["genmytype"] stmtC2 =
      some (("com.tailf.jnc.YangMytype", "Mytype"), ["genmytype"], []) ∧
    get_types 1 ctxVerbose []
        (Stmt.mk "type" "string" [] [] none none []) =
      some (("com.tailf.jnc.YangString", "String"), [], []) ∧
    (("com.tailf.jnc.YangMytype" : String), ("Mytype" : String)) ≠
      ("com.tailf.jnc.YangString", "String") :=
  ⟨by decide, by decide, by decide, by decide⟩

/-- C3: the code-bug evaluation.  For a configuration list with a single key
leaf named name whose type is the text type string, the generated
constructor list is the empty constructor plus THREE key-based constructors
(library-typed, String-typed, and a third whose parameter type is again
String, because the source counts key leafs whose NAME differs from the
literal string instead of inspecting the key type); the claim requires
exactly two key-based constructors for a text-typed key. -/
theorem C3_text_key_constructors :
    get_types 1 ctxPlain [] keyLeafC3 =
      some (("com.tailf.jnc.YangString", "String"), [], []) ∧
    list_constructors 2 ctxPlain [] [stmtC3] =
      some [[], ["com.tailf.jnc.YangString"], ["String"], ["String"]] ∧
    (list_constructors 2 ctxPlain [] [stmtC3]).map List.length ≠ some 3 :=
  ⟨by decide, by decide, by decide⟩

/-- C4 counterexample: a leaf-list whose value type resolves to the text
primitive String still receives 8 mark-for-operation methods from
generate_child, not the 4 the claim predicts for text-typed leaf-lists. -/
theorem C4_counterexample :
    get_types 1 ctxPlain [] (Stmt.mk "type" "string" [] [] none none []) =
      some (("com.tailf.jnc.YangString", "String"), [], []) ∧
    (generate_child_leaf_list 1 ctxPlain [] "Pfx" stmtC4).map countMarks =
      some 8 ∧
    (generate_child_leaf_list 1 ctxPlain [] "Pfx" stmtC4).map countMarks ≠
      some 4 :=
  ⟨by decide, by decide, by decide⟩

/-- C4 (amended): every leaf-list child for which generate_child succeeds
receives exactly 8 mark-for-operation methods (the 4 operations, each with
the library-typed and the String-typed overload), independently of the
resolved primitive type. -/
theorem C4_leaf_list_marks (fuel : Nat) (ctx : Ctx) (ws : List String)
    (prefixName : String) (sub : Stmt) (ms : List Meth)
    (h : generate_child_leaf_list fuel ctx ws prefixName sub = some ms) :
    countMarks ms = 8 := by
  rw [generate_child_leaf_list] at h
  split at h
  · split at h
    · exact absurd h (by simp)
    · split at h
      · exact absurd h (by simp)
      · injection h with hms
        subst hms
        split <;> simp [countMarks, List.filter]
  · exact absurd h (by simp)

/-- C4 witness: the mark-method count law applied to the concrete text-typed
leaf-list. -/
theorem C4_witness :
    countMarks
      [Meth.comment "leaf-list" "foo" false,
       Meth.childIterator "foo",
       Meth.setLeafValue "foo" "Pfx" "com.tailf.jnc.YangString" "",
       Meth.setLeafValue "foo" "" "String" "com.tailf.jnc.YangString",
       Meth.deleteOp "foo" ["com.tailf.jnc.YangString"] false false,
       Meth.deleteOp "foo" ["com.tailf.jnc.YangString"] true false,
       Meth.addValue "foo" "Pfx",
       Meth.markOp "foo" "replace" "com.tailf.jnc.YangString",
       Meth.markOp "foo" "replace" "String",
       Meth.markOp "foo" "merge" "com.tailf.jnc.YangString",
       Meth.markOp "foo" "merge" "String",
       Meth.markOp "foo" "create" "com.tailf.jnc.YangString",
       Meth.markOp "foo" "create" "String",
       Meth.markOp "foo" "delete" "com.tailf.jnc.YangString",
       Meth.markOp "foo" "delete" "String"] = 8 :=
  C4_leaf_list_marks 1 ctxPlain [] "Pfx" stmtC4 _ (by decide)

/-- C6 counterexample: the camelized name Object collides with the java.lang
short class name Object but make_valid_identifier leaves it unmarked; the
marker is prepended for reserved-word collisions only. -/
theorem C6_counterexample :
    make_valid_identifier_arg "container" "Object" = "Object" ∧
    "Object" ∈ java_lang ∧
    make_valid_identifier_arg "container" "Object" ≠
      "J" ++ camelizeStr "Object" :=
  ⟨by decide, by decide, by decide⟩

/-- C6 (amended): for a non-immutable keyword and nonempty name, the
sanitized name differs from the plain camelization exactly when the
camelization is a Java reserved word, in which case the J marker is
prepended; collisions with java.lang short names alone are left unmarked. -/
theorem C6_reserved_marker (k a : String) (h1 : k ∉ immutable_stmts)
    (h2 : a ≠ "") :
    (make_valid_identifier_arg k a ≠ camelizeStr a ↔
      camelizeStr a ∈ java_reserved_words) ∧
    (camelizeStr a ∈ java_reserved_words →
      make_valid_identifier_arg k a = "J" ++ camelizeStr a) := by
  by_cases hres : camelizeStr a ∈ java_reserved_words
  · have hv : make_valid_identifier_arg k a = "J" ++ camelizeStr a := by
      simp [make_valid_identifier_arg, h1, h2, hres]
    have hne : ("J" ++ camelizeStr a) ≠ camelizeStr a := by
      intro hEq
      have hlen := congrArg String.length hEq
      rw [String.length_append] at hlen
      have h1len : ("J" : String).length = 1 := rfl
      rw [h1len] at hlen
      omega
    exact ⟨⟨fun _ => hres, fun _ => by rw [hv]; exact hne⟩, fun _ => hv⟩
  · have hv : make_valid_identifier_arg k a = camelizeStr a := by
      simp [make_valid_identifier_arg, h1, h2, hres]
    exact ⟨⟨fun hne => absurd hv hne, fun hmem => absurd hmem hres⟩,
      fun hmem => absurd hmem hres⟩

/-- C6 witness: the amended marker law at the reserved name for. -/
theorem C6_witness :
    (make_valid_identifier_arg "container" "for" ≠ camelizeStr "for" ↔
      camelizeStr "for" ∈ java_reserved_words) ∧
    (camelizeStr "for" ∈ java_reserved_words →
      make_valid_identifier_arg "container" "for" =
        "J" ++ camelizeStr "for") :=
  C6_reserved_marker "container" "for" (by decide) (by decide)

/-- C7 counterexample: a typedef of int32 with neither enum nor pattern
restrictions still receives a checker method (with empty body), and both of
its constructors invoke the check call, contradicting the claim that no
checker is produced and that constructors check only under restrictions. -/
theorem C7_counterexample :
    (search typeC7 "enum").isEmpty = true ∧
    (search typeC7 "pattern").isEmpty = true ∧
    typedef_checker stmtC7 = some [[]] ∧
    typedef_checker stmtC7 ≠ some [] ∧
    typedef_constructors 1 ctxPlain [] stmtC7 =
      some [("String", ["super(value);", "check();"]),
            ("int", ["super(value);", "check();"])] :=
  ⟨by decide, by decide, by decide, by decide, by decide⟩

/-- C7 (amended): for every typedef with a type substatement the generator
produces exactly one checker method unconditionally (needs_check is
hard-wired to True in the source); the checker body is empty when the type
declares neither enum values nor patterns; and every produced constructor
invokes check after the assignment, also unconditionally. -/
theorem C7_typedef_checker_always (stmt st : Stmt)
    (h : search_one stmt "type" = some st) :
    (∃ body, typedef_checker stmt = some [body] ∧
      ((search st "enum").isEmpty = true ∧
        (search st "pattern").isEmpty = true → body = [])) ∧
    (∀ (fuel : Nat) (ctx : Ctx) (ws : List String)
        (cs : List (String × List String)),
      typedef_constructors fuel ctx ws stmt = some cs →
      ∀ c ∈ cs, "check();" ∈ c.2) := by
  constructor
  · simp only [typedef_checker, h, typedef_needs_check, if_true]
    refine ⟨_, rfl, ?_⟩
    intro hempty
    obtain ⟨he, hp⟩ := hempty
    simp [he, hp]
  · intro fuel ctx ws cs hc c hmem
    simp only [typedef_constructors, h] at hc
    split at hc
    · exact absurd hc (by simp)
    · injection hc with hcs
      subst hcs
      simp only [List.mem_map] at hmem
      obtain ⟨i, _, rfl⟩ := hmem
      simp [typedef_needs_check]

/-- C7 witness: the amended law applied to the concrete restriction-free
typedef, yielding its empty-bodied checker and a checking constructor. -/
theorem C7_witness :
    typedef_checker stmtC7 = some [[]] ∧
    "check();" ∈ ["super(value);", "check();"] := by
  have h := C7_typedef_checker_always stmtC7 typeC7 rfl
  obtain ⟨body, hb, hbe⟩ := h.1
  have hbody : body = [] := hbe (by decide)
  subst hbody
  exact ⟨hb, h.2 1 ctxPlain []
    [("String", ["super(value);", "check();"]),
     ("int", ["super(value);", "check();"])]
    (by decide) ("String", ["super(value);", "check();"]) (by decide)⟩

/-- Looking up the inserted key in a Python-dict association list finds the
inserted value. -/
theorem dictLookup_dictInsert (d : List (String × Stmt)) (k : String)
    (v : Stmt) : dictLookup (dictInsert d k v) k = some v := by
  induction d with
  | nil => simp [dictInsert, dictLookup]
  | cons p rest ih =>
    by_cases hp : p.1 == k
    · have hpe : p.1 = k := by simpa using hp
      have hmap : dictInsert (p :: rest) k v =
          (k, v) :: rest.map (fun q => if q.1 == k then (k, v) else q) := by
        simp [dictInsert, List.any_cons, hp, hpe]
      rw [hmap, dictLookup]
      rw [List.find?_cons_of_pos _ (by simp)]
      rfl
    · have hpe : ¬p.1 = k := by simpa using hp
      by_cases hr : rest.any (fun q => q.1 == k)
      · have hmap : dictInsert (p :: rest) k v =
            p :: rest.map (fun q => if q.1 == k then (k, v) else q) := by
          simp [dictInsert, List.any_cons, hp, hpe, hr]
        have hins : dictInsert rest k v =
            rest.map (fun q => if q.1 == k then (k, v) else q) := by
          simp [dictInsert, hr]
        rw [hmap, dictLookup]
        rw [List.find?_cons_of_neg _ (by simp [hp])]
        show dictLookup (rest.map (fun q => if q.1 == k then (k, v) else q))
          k = some v
        rw [← hins]
        exact ih
      · have hmap : dictInsert (p :: rest) k v = p :: (rest ++ [(k, v)]) := by
          simp [dictInsert, List.any_cons, hp, hpe, hr]
        have hins : dictInsert rest k v = rest ++ [(k, v)] := by
          simp [dictInsert, hr]
        rw [hmap, dictLookup]
        rw [List.find?_cons_of_neg _ (by simp [hp])]
        show dictLookup (rest ++ [(k, v)]) k = some v
        rw [← hins]
        exact ih

/-- C8: class generation at an augment node emits no class for the node
itself; with a resolved target annotation (in particular one whose top
document differs from the module being generated) the target's top document
is recorded in augmented_modules, where it can be looked up for its own
generation pass, and no warning is issued; without a resolvable target a
warning is issued through print_warning (here in a verbose context with a
fresh warning key) and the registry is left unchanged. -/
theorem C8_augment_branch (ctx : Ctx) (reg : List (String × Stmt))
    (ws : List String) (s t m : Stmt)
    (hs : s.keyword = "augment") (hst : s.iTargetTop = some m)
    (ht : t.keyword = "augment") (htt : t.iTargetTop = none)
    (hv : ctx.verbose = true)
    (hw : "Target missing from augment statement" ∉ ws) :
    generate_class_augment (some ctx) reg ws s =
      some ⟨false, dictInsert reg m.arg m, ws, []⟩ ∧
    dictLookup (dictInsert reg m.arg m) m.arg = some m ∧
    generate_class_augment (some ctx) reg ws t =
      some ⟨false, reg, ws ++ ["Target missing from augment statement"],
        ["WARNING: Target missing from augment statement"]⟩ := by
  refine ⟨?_, dictLookup_dictInsert reg m.arg m, ?_⟩
  · simp [generate_class_augment, hs, hst]
  · simp [generate_class_augment, ht, htt, print_warning, warnEnabled, hv, hw]

/-- C8 witness: the augment branch evaluated on a concrete resolved augment,
a concrete unresolved augment, a verbose context and empty state. -/
theorem C8_witness :
    generate_class_augment (some ctxVerbose) [] [] augC8 =
      some ⟨false, dictInsert [] (Stmt.arg modC8) modC8, [], []⟩ ∧
    dictLookup (dictInsert [] (Stmt.arg modC8) modC8) (Stmt.arg modC8) =
      some modC8 ∧
    generate_class_augment (some ctxVerbose) [] [] augC8none =
      some ⟨false, [], [] ++ ["Target missing from augment statement"],
        ["WARNING: Target missing from augment statement"]⟩ :=
  C8_augment_branch ctxVerbose [] [] augC8 augC8none modC8 rfl rfl rfl rfl
    rfl (by decide)
